import Mathlib

/-!
Verification of the snapshot-diff logic of `Work_of_Race`.

The repository consists of two Python scripts, `test_data.py` and
`Get_Date.py`.  The core logic is `compare_metadata` in `test_data.py`
(lines 95-161), which diffs two ordered collections of metadata records
keyed by `(source, name)`.  The embedding below models each Python dict
record as a structure whose optional fields carry a two-level `Option`:
`none` means the key is absent from the dict, `some none` means the key
is present with value `None`, and `some (some s)` means the key holds the
string `s`.  A Python subscript `item["f"]`, which raises `KeyError` when
the key is absent, is modelled by `getItem`, returning `Except`; the safe
accessor `item.get("f")` is modelled by `Option.join`.
-/

set_option autoImplicit false

namespace WorkOfRace

/-- One metadata record, as produced by the fetchers of `test_data.py` or
loaded back from `metadata.json`.  The keys `source` and `name` are always
present (every producer writes them, and the diff keys records by them),
so they are total fields; every other field models a dict key that may be
absent (`none`), present with value `None` (`some none`), or present with
a value. -/
structure Record where
  source : String
  name : String
  version : Option (Option String) := none
  last_updated : Option (Option String) := none
  checked_at : Option (Option String) := none
  author : Option (Option String) := none
  home_page : Option (Option String) := none
  license : Option (Option String) := none
  stars : Option Int := none
  forks : Option Int := none
  deriving DecidableEq

/-- The identity `(item["source"], item["name"])` used as dict key by
`compare_metadata`. -/
def Record.key (r : Record) : String × String := (r.source, r.name)

/-- One entry of the update log returned by `compare_metadata`. -/
structure ChangeEvent where
  source : String
  name : String
  change_type : String
  old_value : Option String
  new_value : Option String
  check_time : Option String
  deriving DecidableEq

/-- Python truthiness of a string-or-`None` value: `None` and `""` are
falsy. -/
def truthy : Option String → Bool
  | none => false
  | some s => !(s == "")

/-- Python `a or b` on string-or-`None` values: returns `a` when `a` is
truthy, otherwise `b`. -/
def pyOr (a b : Option String) : Option String :=
  if truthy a then a else b

/-- Python `item["f"]` on an optional dict field: raises `KeyError` when
the key is absent, otherwise returns the stored value (possibly `None`). -/
def getItem (field : Option (Option String)) (fieldName : String) :
    Except String (Option String) :=
  match field with
  | none => .error ("KeyError: " ++ fieldName)
  | some v => .ok v

abbrev Key := String × String

/-- A Python dict from keys to records: an insertion-ordered association
list. -/
abbrev Dict := List (Key × Record)

/-- Assigning `d[k] = v` on an insertion-ordered dict: an existing key
keeps its position and gets the new value, a fresh key is appended. -/
def dictInsert (d : Dict) (k : Key) (v : Record) : Dict :=
  if d.any (fun p => p.1 == k) then
    d.map (fun p => if p.1 == k then (k, v) else p)
  else
    d ++ [(k, v)]

/-- The dict comprehension
`{(item["source"], item["name"]): item for item in data}` of
`compare_metadata`. -/
def buildDict (items : List Record) : Dict :=
  items.foldl (fun d item => dictInsert d item.key item) []

/-- `d[k]` / `k in d` on a dict, as an `Option`. -/
def dictFind (d : Dict) (k : Key) : Option Record :=
  (d.find? (fun p => p.1 == k)).map (fun p => p.2)

/-- The body of the first loop of `compare_metadata` (lines 116-147) for
one entry `(key, new_item)` of `new_dict`: emits the `新增` (added) event
when the key is absent from `old_dict`, otherwise compares the
source-specific field and emits `版本更新` / `仓库更新` when it differs.
Subscript lookups may raise, hence the `Except`. -/
def newEvent (old_dict : Dict) (key : Key) (new_item : Record) :
    Except String (List ChangeEvent) :=
  match dictFind old_dict key with
  | none =>
    match getItem new_item.checked_at "checked_at" with
    | .error e => .error e
    | .ok ct =>
      .ok [{ source := new_item.source, name := new_item.name,
             change_type := "新增", old_value := none,
             new_value := pyOr new_item.version.join new_item.last_updated.join,
             check_time := ct }]
  | some old_item =>
    if new_item.source = "pypi" then
      match getItem old_item.version "version" with
      | .error e => .error e
      | .ok ov =>
        match getItem new_item.version "version" with
        | .error e => .error e
        | .ok nv =>
          if ov ≠ nv then
            match getItem new_item.checked_at "checked_at" with
            | .error e => .error e
            | .ok ct =>
              .ok [{ source := "pypi", name := new_item.name,
                     change_type := "版本更新", old_value := ov,
                     new_value := nv, check_time := ct }]
          else .ok []
    else if new_item.source = "github" then
      match getItem old_item.last_updated "last_updated" with
      | .error e => .error e
      | .ok ov =>
        match getItem new_item.last_updated "last_updated" with
        | .error e => .error e
        | .ok nv =>
          if ov ≠ nv then
            match getItem new_item.checked_at "checked_at" with
            | .error e => .error e
            | .ok ct =>
              .ok [{ source := "github", name := new_item.name,
                     change_type := "仓库更新", old_value := ov,
                     new_value := nv, check_time := ct }]
          else .ok []
    else .ok []

/-- The first loop of `compare_metadata`, over the entries of `new_dict`
in insertion order, accumulating the emitted events. -/
def processNew (old_dict : Dict) : List (Key × Record) →
    Except String (List ChangeEvent)
  | [] => .ok []
  | p :: rest =>
    match newEvent old_dict p.1 p.2 with
    | .error e => .error e
    | .ok evs =>
      match processNew old_dict rest with
      | .error e => .error e
      | .ok more => .ok (evs ++ more)

/-- The `移除` (removed) event built at lines 152-159; `now` stands for
`datetime.now().isoformat()`. -/
def removedEvent (now : String) (old_item : Record) : ChangeEvent :=
  { source := old_item.source, name := old_item.name, change_type := "移除",
    old_value := pyOr old_item.version.join old_item.last_updated.join,
    new_value := none, check_time := some now }

/-- The second loop of `compare_metadata` (lines 150-159): one removal
event for every key of `old_dict` absent from `new_dict`, in `old_dict`'s
insertion order.  Only `.get` accessors are used, so it cannot raise. -/
def removedEvents (now : String) (new_dict : Dict) :
    List (Key × Record) → List ChangeEvent
  | [] => []
  | p :: rest =>
    (if (dictFind new_dict p.1).isNone then [removedEvent now p.2] else [])
      ++ removedEvents now new_dict rest

/-- `compare_metadata(old_data, new_data)` of `test_data.py`
(lines 95-161).  `now` stands for the wall-clock reading used for the
`check_time` of removal events.  The result is the list of appended
update events followed by the removal events, or the first raised
`KeyError`. -/
def compare_metadata (now : String) (old_data new_data : List Record) :
    Except String (List ChangeEvent) :=
  match processNew (buildDict old_data) (buildDict new_data) with
  | .error e => .error e
  | .ok updates =>
    .ok (updates ++ removedEvents now (buildDict new_data) (buildDict old_data))

/-- Well-formedness of one record per the data model of the spec: the
source kind is one of the two known ones, the fetch timestamp is present,
and `version` / `last_updated` belong only to PyPI / GitHub records
respectively.  The comparison field itself may be absent. -/
def Record.wf (r : Record) : Prop :=
  (r.source = "pypi" ∨ r.source = "github") ∧
  r.checked_at.isSome = true ∧
  (r.source = "pypi" → r.last_updated = none) ∧
  (r.source = "github" → r.version = none)

instance (r : Record) : Decidable r.wf := by
  unfold Record.wf; infer_instance

/-- Well-formedness of a snapshot: pairwise distinct `(source, name)`
identities and well-formed records. -/
def Snapshot.wf (s : List Record) : Prop :=
  (s.map Record.key).Nodup ∧ ∀ r ∈ s, r.wf

instance (s : List Record) : Decidable (Snapshot.wf s) := by
  unfold Snapshot.wf; infer_instance

/-- The source-specific comparison field of a record: `version` for PyPI,
`last_updated` for GitHub. -/
def Record.cmpField (r : Record) : Option (Option String) :=
  if r.source = "pypi" then r.version
  else if r.source = "github" then r.last_updated
  else none

/-- The change-type string used for a field update of each source kind. -/
def fieldUpdatedType (source : String) : String :=
  if source = "pypi" then "版本更新" else "仓库更新"

/-- The identity carried by a change event. -/
def evKey (e : ChangeEvent) : Key := (e.source, e.name)

/-- Two records agreeing on every field `compare_metadata` reads
(identity, the two comparison fields, and the fetch timestamp), possibly
differing in the opaque descriptive fields. -/
def coreEq (a b : Record) : Prop :=
  a.source = b.source ∧ a.name = b.name ∧ a.version = b.version ∧
  a.last_updated = b.last_updated ∧ a.checked_at = b.checked_at

/-- Two dict entries with equal keys and `coreEq`-related records. -/
def entryRel (p q : Key × Record) : Prop :=
  p.1 = q.1 ∧ coreEq p.2 q.2

namespace PyJson

/-- Lowercase hexadecimal digit, as produced by Python's `\uXXXX`
escapes. -/
def hexDigit (n : Nat) : Char :=
  if n < 10 then Char.ofNat (48 + n) else Char.ofNat (87 + n)

/-- Four-digit lowercase hexadecimal rendering of a code unit. -/
def hex4 (n : Nat) : String :=
  String.mk [hexDigit (n / 4096 % 16), hexDigit (n / 256 % 16),
             hexDigit (n / 16 % 16), hexDigit (n % 16)]

/-- One `\uXXXX` escape sequence. -/
def uEscape (n : Nat) : String := "\\u" ++ hex4 n

/-- How `json.dump` renders one character of a string.  With
`ensure_ascii=True` (the default) every character outside the printable
ASCII range `0x20`-`0x7e` is escaped, non-BMP ones as a surrogate pair;
with `ensure_ascii=False` only the quote, the backslash and control
characters are escaped. -/
def escapeChar (ensure_ascii : Bool) (c : Char) : String :=
  if c = '"' then "\\\""
  else if c = '\\' then "\\\\"
  else if c = '\n' then "\\n"
  else if c = '\r' then "\\r"
  else if c = '\t' then "\\t"
  else if c.toNat = 8 then "\\b"
  else if c.toNat = 12 then "\\f"
  else if c.toNat < 32 then uEscape c.toNat
  else if ensure_ascii && decide (126 < c.toNat) then
    if c.toNat < 65536 then uEscape c.toNat
    else uEscape (55296 + (c.toNat - 65536) / 1024) ++
         uEscape (56320 + (c.toNat - 65536) % 1024)
  else String.singleton c

/-- `json.dump`'s rendering of the inside of a string literal. -/
def escapeString (ensure_ascii : Bool) (s : String) : String :=
  String.join (s.data.map (escapeChar ensure_ascii))

/-- The JSON values occurring in the records the scripts serialize. -/
inductive JValue
  | null
  | str (s : String)
  | int (n : Int)
  deriving DecidableEq

/-- A JSON object with insertion-ordered keys, as the scripts build
them. -/
abbrev JObj := List (String × JValue)

/-- Rendering of one scalar value. -/
def dumpValue (ensure_ascii : Bool) : JValue → String
  | .null => "null"
  | .str s => "\"" ++ escapeString ensure_ascii s ++ "\""
  | .int n => toString n

/-- Joining rendered items with a separator, as the serializer emits
them. -/
def sepJoin (sep : String) : List String → String
  | [] => ""
  | [x] => x
  | x :: y :: rest => x ++ sep ++ sepJoin sep (y :: rest)

/-- One `"key": value` member line. -/
def dumpPair (ensure_ascii : Bool) (p : String × JValue) : String :=
  "\"" ++ escapeString ensure_ascii p.1 ++ "\": " ++ dumpValue ensure_ascii p.2

/-- An object at nesting depth 1 under `indent=2`: members indented by
four spaces, closing brace by two. -/
def dumpObj (ensure_ascii : Bool) (o : JObj) : String :=
  match o with
  | [] => "\x7b\x7d"
  | _ => "\x7b\n    " ++ sepJoin ",\n    " (o.map (dumpPair ensure_ascii))
      ++ "\n  \x7d"

/-- `json.dump(data, f, indent=2)` on a list of flat objects, which is the
only shape either script serializes. -/
def dump (ensure_ascii : Bool) (data : List JObj) : String :=
  match data with
  | [] => "[]"
  | _ => "[\n  " ++ sepJoin ",\n  " (data.map (dumpObj ensure_ascii)) ++ "\n]"

/-- The characters of a string value; other values carry none. -/
def valueChars : JValue → List Char
  | .str s => s.data
  | _ => []

/-- The characters of one key-value member. -/
def pairChars (p : String × JValue) : List Char :=
  p.1.data ++ valueChars p.2

/-- All characters appearing in the string keys and string values of a
list of objects. -/
def dataChars (data : List JObj) : List Char :=
  (data.map (fun o => (o.map pairChars).flatten)).flatten

end PyJson

/-- The file content written by `save_to_json` of `test_data.py`
(lines 67-74): `json.dump(data, f, indent=2, ensure_ascii=False)`. -/
def save_to_json_test_data (data : List PyJson.JObj) : String :=
  PyJson.dump false data

/-- The file content written by `save_to_json` of `Get_Date.py`
(lines 52-59): `json.dump(data, f, indent=2)`, with `ensure_ascii`
defaulting to `True`. -/
def save_to_json_Get_Date (data : List PyJson.JObj) : String :=
  PyJson.dump true data

/-- The paths `save_to_json` opens for writing: it always writes its
output file. -/
def save_to_json_writes (_data : List PyJson.JObj) (output_path : String) :
    List String :=
  [output_path]

/-- The paths `save_to_csv` (identical in both scripts) opens for
writing: it returns before opening anything when `data` is empty
(`if not data: return`, lines 79-80 of `test_data.py`). -/
def save_to_csv_writes (data : List PyJson.JObj) (output_path : String) :
    List String :=
  if data.isEmpty then [] else [output_path]

/-- The snapshot files written by the save step of `main` in
`test_data.py` (lines 201-204): both saves are guarded by
`if current_data:`, whose Python truthiness is non-emptiness. -/
def main_save_writes (current_data : List PyJson.JObj) : List String :=
  if current_data.isEmpty then []
  else save_to_json_writes current_data "./output/metadata.json"
    ++ save_to_csv_writes current_data "./output/metadata.csv"

/-! Concrete records for the scenario of §8 of the spec and for the
counterexample inputs. -/

/-- Previous snapshot, first record of the §8 scenario: PyPI `numpy` at
version `1.0`. -/
def numpy_old : Record :=
  { source := "pypi", name := "numpy", version := some (some "1.0"),
    checked_at := some (some "t0") }

/-- Previous snapshot, second record of the §8 scenario: GitHub
`torvalds/linux` last updated `2023-01-01`. -/
def linux_old : Record :=
  { source := "github", name := "torvalds/linux",
    last_updated := some (some "2023-01-01"), checked_at := some (some "t0") }

/-- Current snapshot, first record of the §8 scenario: PyPI `numpy` at
version `1.1`. -/
def numpy_new : Record :=
  { source := "pypi", name := "numpy", version := some (some "1.1"),
    checked_at := some (some "t1") }

/-- Current snapshot, second record of the §8 scenario: PyPI `pandas` at
version `2.0`. -/
def pandas_new : Record :=
  { source := "pypi", name := "pandas", version := some (some "2.0"),
    checked_at := some (some "t1") }

/-- A well-formed PyPI record whose `version` key is absent, as the data
model allows. -/
def pypi_no_version : Record :=
  { source := "pypi", name := "x", checked_at := some (some "t") }

/-- A well-formed PyPI record carrying `version` `"1.0"`. -/
def pypi_with_version : Record :=
  { source := "pypi", name := "x", version := some (some "1.0"),
    checked_at := some (some "t") }

/-- A well-formed PyPI record whose `version` is the empty string. -/
def pypi_empty_version : Record :=
  { source := "pypi", name := "x", version := some (some ""),
    checked_at := some (some "t") }

/-- A well-formed GitHub record whose `last_updated` key is absent. -/
def github_no_lu : Record :=
  { source := "github", name := "a/b", checked_at := some (some "t") }

/-- A well-formed GitHub record carrying `last_updated` `"2024-01-01"`. -/
def github_with_lu : Record :=
  { source := "github", name := "a/b",
    last_updated := some (some "2024-01-01"), checked_at := some (some "t") }

/-- The same GitHub record as `github_with_lu` up to the fields the diff
never reads: different star count and license. -/
def github_with_lu_b : Record :=
  { source := "github", name := "a/b",
    last_updated := some (some "2024-01-01"), checked_at := some (some "t"),
    stars := some 7, license := some (some "MIT") }

/-- The version-update event the §8 scenario expects for `numpy`. -/
def ev_numpy_updated : ChangeEvent :=
  { source := "pypi", name := "numpy", change_type := "版本更新",
    old_value := some "1.0", new_value := some "1.1",
    check_time := some "t1" }

/-- The added event the §8 scenario expects for `pandas`. -/
def ev_pandas_added : ChangeEvent :=
  { source := "pypi", name := "pandas", change_type := "新增",
    old_value := none, new_value := some "2.0", check_time := some "t1" }

/-- The removal event the §8 scenario expects for `torvalds/linux`. -/
def ev_linux_removed : ChangeEvent :=
  { source := "github", name := "torvalds/linux", change_type := "移除",
    old_value := some "2023-01-01", new_value := none,
    check_time := some "t2" }

/-! ## Dictionary lemmas -/

theorem dictInsert_fresh (d : Dict) (k : Key) (v : Record)
    (h : ∀ p ∈ d, p.1 ≠ k) : dictInsert d k v = d ++ [(k, v)] := by
  have hany : d.any (fun p => p.1 == k) = false := by
    rw [List.any_eq_false]
    intro p hp
    simpa using h p hp
  simp [dictInsert, hany]

theorem buildDict_aux (s : List Record) :
    ∀ d : Dict, (∀ r ∈ s, ∀ p ∈ d, p.1 ≠ r.key) →
    (s.map Record.key).Nodup →
    s.foldl (fun d item => dictInsert d item.key item) d
      = d ++ s.map (fun r => (r.key, r)) := by
  induction s with
  | nil => intro d _ _; simp
  | cons r s ih =>
    intro d hdisj hnodup
    have hnd : r.key ∉ s.map Record.key ∧ (s.map Record.key).Nodup := by
      rw [List.map_cons, List.nodup_cons] at hnodup
      exact hnodup
    simp only [List.foldl_cons]
    rw [dictInsert_fresh d r.key r (fun p hp => hdisj r (by simp) p hp)]
    rw [ih (d ++ [(r.key, r)]) ?_ hnd.2]
    · simp
    · intro r' hr' p hp
      rcases List.mem_append.mp hp with hmem | hmem
      · exact hdisj r' (List.mem_cons_of_mem _ hr') p hmem
      · have hpk : p = (r.key, r) := by simpa using hmem
        subst hpk
        intro hk
        have hk' : r.key = r'.key := hk
        exact hnd.1 (by rw [hk']; exact List.mem_map_of_mem Record.key hr')

theorem buildDict_eq (s : List Record) (h : (s.map Record.key).Nodup) :
    buildDict s = s.map (fun r => (r.key, r)) := by
  have := buildDict_aux s [] (by simp) h
  simpa [buildDict] using this

theorem dictFind_eq_none (d : Dict) (k : Key) :
    dictFind d k = none ↔ ∀ p ∈ d, p.1 ≠ k := by
  simp [dictFind, List.find?_eq_none]

theorem dictFind_map_eq_none (s : List Record) (k : Key) :
    dictFind (s.map (fun r => (r.key, r))) k = none ↔ ∀ r ∈ s, r.key ≠ k := by
  rw [dictFind_eq_none]
  constructor
  · intro h r hr
    exact h (r.key, r) (List.mem_map_of_mem _ hr)
  · intro h p hp
    rcases List.mem_map.mp hp with ⟨r, hr, rfl⟩
    exact h r hr

theorem dictFind_some (d : Dict) (k : Key) (r : Record)
    (h : dictFind d k = some r) : (k, r) ∈ d := by
  simp only [dictFind, Option.map_eq_some'] at h
  rcases h with ⟨p, hfind, hsnd⟩
  have hmem := List.mem_of_find?_eq_some hfind
  have hpred : p.1 = k := by simpa using List.find?_some hfind
  have : p = (k, r) := by
    cases p
    simp_all
  exact this ▸ hmem

theorem dictFind_map_some (s : List Record) (k : Key) (r : Record)
    (h : dictFind (s.map (fun r => (r.key, r))) k = some r) :
    r ∈ s ∧ r.key = k := by
  have hmem := dictFind_some _ _ _ h
  rcases List.mem_map.mp hmem with ⟨r', hr', heq⟩
  have h1 : r'.key = k := congrArg Prod.fst heq
  have h2 : r' = r := congrArg Prod.snd heq
  exact ⟨h2 ▸ hr', h2 ▸ h1⟩

theorem dictFind_of_mem (s : List Record) (r : Record)
    (hnd : (s.map Record.key).Nodup) (hr : r ∈ s) :
    dictFind (s.map (fun r => (r.key, r))) r.key = some r := by
  induction s with
  | nil => cases hr
  | cons a s ih =>
    have hnd' : a.key ∉ s.map Record.key ∧ (s.map Record.key).Nodup := by
      rw [List.map_cons, List.nodup_cons] at hnd
      exact hnd
    rcases List.mem_cons.mp hr with rfl | hmem
    · simp [dictFind, List.find?_cons_of_pos]
    · have hne : a.key ≠ r.key := by
        intro hk
        exact hnd'.1 (hk ▸ List.mem_map_of_mem Record.key hmem)
      have : dictFind (s.map (fun r => (r.key, r))) r.key = some r :=
        ih hnd'.2 hmem
      simpa [dictFind, List.find?_cons_of_neg, hne] using this

/-! ## Lemmas about the event-emitting loops -/

theorem newEvent_shape (d : Dict) (k : Key) (r : Record)
    (evs : List ChangeEvent) (h : newEvent d k r = .ok evs) :
    evs = [] ∨ ∃ e, evs = [e] ∧ e.source = r.source ∧ e.name = r.name ∧
      (e.change_type = "新增" ∨ e.change_type = "版本更新" ∨
        e.change_type = "仓库更新") := by
  unfold newEvent getItem at h
  repeat' split at h
  all_goals (try cases h)
  all_goals
    first
    | (left; rfl)
    | (right; exact ⟨_, rfl, by simp_all, rfl, by simp⟩)

theorem change_types_ne :
    ("新增" : String) ≠ "移除" ∧ ("版本更新" : String) ≠ "移除" ∧
    ("仓库更新" : String) ≠ "移除" := by
  refine ⟨?_, ?_, ?_⟩ <;> decide

theorem newEvent_not_removed (d : Dict) (k : Key) (r : Record)
    (evs : List ChangeEvent) (h : newEvent d k r = .ok evs) :
    ∀ e ∈ evs, e.change_type ≠ "移除" := by
  intro e he
  rcases newEvent_shape d k r evs h with rfl | ⟨e', rfl, _, _, ht⟩
  · cases he
  · have : e = e' := by simpa using he
    subst this
    rcases ht with h1 | h1 | h1 <;> rw [h1]
    · exact change_types_ne.1
    · exact change_types_ne.2.1
    · exact change_types_ne.2.2

theorem newEvent_added (d : Dict) (k : Key) (r : Record) (ct : Option String)
    (hfind : dictFind d k = none) (hct : r.checked_at = some ct) :
    newEvent d k r = .ok [{
      source := r.source, name := r.name, change_type := "新增",
      old_value := none,
      new_value := pyOr r.version.join r.last_updated.join,
      check_time := ct }] := by
  simp [newEvent, hfind, getItem, hct]

theorem newEvent_matched_pypi (d : Dict) (k : Key) (o r : Record)
    (ov nv ct : Option String)
    (hfind : dictFind d k = some o) (hsrc : r.source = "pypi")
    (ho : o.version = some ov) (hn : r.version = some nv)
    (hct : r.checked_at = some ct) :
    newEvent d k r = .ok (if ov ≠ nv then
      [{
        source := "pypi", name := r.name, change_type := "版本更新",
        old_value := ov, new_value := nv, check_time := ct }] else []) := by
  by_cases hne : ov = nv
  · simp [newEvent, hfind, getItem, hsrc, ho, hn, hct, hne]
  · simp [newEvent, hfind, getItem, hsrc, ho, hn, hct, hne]

theorem newEvent_matched_github (d : Dict) (k : Key) (o r : Record)
    (ov nv ct : Option String)
    (hfind : dictFind d k = some o) (hsrc : r.source = "github")
    (ho : o.last_updated = some ov) (hn : r.last_updated = some nv)
    (hct : r.checked_at = some ct) :
    newEvent d k r = .ok (if ov ≠ nv then
      [{
        source := "github", name := r.name, change_type := "仓库更新",
        old_value := ov, new_value := nv, check_time := ct }] else []) := by
  have hsrc' : ¬ r.source = "pypi" := by rw [hsrc]; decide
  by_cases hne : ov = nv
  · simp [newEvent, hfind, getItem, hsrc, hsrc', ho, hn, hct, hne]
  · simp [newEvent, hfind, getItem, hsrc, hsrc', ho, hn, hct, hne]

theorem processNew_ok_cons (d : Dict) (p : Key × Record)
    (rest : List (Key × Record)) (l : List ChangeEvent)
    (h : processNew d (p :: rest) = .ok l) :
    ∃ evs more, newEvent d p.1 p.2 = .ok evs ∧
      processNew d rest = .ok more ∧ l = evs ++ more := by
  unfold processNew at h
  cases hev : newEvent d p.1 p.2 with
  | error e => simp [hev] at h
  | ok evs =>
    cases hrest : processNew d rest with
    | error e => simp [hev, hrest] at h
    | ok more =>
      simp [hev, hrest] at h
      exact ⟨evs, more, rfl, rfl, h.symm⟩

theorem processNew_props (d : Dict) :
    ∀ (entries : List (Key × Record)) (l : List ChangeEvent),
    processNew d entries = .ok l →
    (∀ p ∈ entries, p.1 = p.2.key) →
    (∀ e ∈ l, e.change_type ≠ "移除") ∧
    List.Sublist (l.map evKey) (entries.map Prod.fst) := by
  intro entries
  induction entries with
  | nil =>
    intro l h _
    unfold processNew at h
    cases h
    exact ⟨by simp, by simp⟩
  | cons p rest ih =>
    intro l h hkeys
    rcases processNew_ok_cons d p rest l h with ⟨evs, more, hev, hrest, rfl⟩
    have hmore := ih more hrest (fun q hq => hkeys q (List.mem_cons_of_mem _ hq))
    have hkeyp : p.1 = p.2.key := hkeys p (by simp)
    have hevs : ∀ e ∈ evs, e.change_type ≠ "移除" ∧ evKey e = p.1 := by
      intro e' he'
      refine ⟨newEvent_not_removed d p.1 p.2 evs hev e' he', ?_⟩
      rcases newEvent_shape d p.1 p.2 evs hev with rfl | ⟨e, rfl, hs, hn, _⟩
      · cases he'
      · have : e' = e := by simpa using he'
        subst this
        simp [evKey, hs, hn, hkeyp, Record.key]
    constructor
    · intro e he
      rcases List.mem_append.mp he with hmem | hmem
      · exact (hevs e hmem).1
      · exact hmore.1 e hmem
    · rw [List.map_append, List.map_cons]
      have hsub : List.Sublist (evs.map evKey) [p.1] := by
        rcases newEvent_shape d p.1 p.2 evs hev with rfl | ⟨e, rfl, _, _, _⟩
        · simp
        · have : evKey e = p.1 := (hevs e (by simp)).2
          simp [this]
      have := List.Sublist.append hsub hmore.2
      simpa using this

theorem processNew_filter (d : Dict) :
    ∀ (entries : List (Key × Record)) (l : List ChangeEvent)
    (k₀ : Key) (r₀ : Record),
    processNew d entries = .ok l →
    (∀ p ∈ entries, p.1 = p.2.key) →
    (entries.map Prod.fst).Nodup →
    (k₀, r₀) ∈ entries →
    ∃ evs₀, newEvent d k₀ r₀ = .ok evs₀ ∧
      l.filter (fun e => evKey e == k₀) = evs₀ := by
  intro entries
  induction entries with
  | nil =>
    intro l k₀ r₀ _ _ _ hmem
    cases hmem
  | cons p rest ih =>
    intro l k₀ r₀ h hkeys hnd hmem
    rcases processNew_ok_cons d p rest l h with ⟨evs, more, hev, hrest, rfl⟩
    have hnd' : p.1 ∉ rest.map Prod.fst ∧ (rest.map Prod.fst).Nodup := by
      rw [List.map_cons, List.nodup_cons] at hnd
      exact hnd
    have hkeyp : p.1 = p.2.key := hkeys p (by simp)
    have hrestkeys : ∀ q ∈ rest, q.1 = q.2.key :=
      fun q hq => hkeys q (List.mem_cons_of_mem _ hq)
    have hmoreprops := processNew_props d rest more hrest hrestkeys
    have hevkeys : ∀ e ∈ evs, evKey e = p.1 := by
      rcases newEvent_shape d p.1 p.2 evs hev with rfl | ⟨e, rfl, hs, hn, _⟩
      · simp
      · intro e' he'
        have : e' = e := by simpa using he'
        subst this
        simp [evKey, hs, hn, hkeyp, Record.key]
    rw [List.filter_append]
    rcases List.mem_cons.mp hmem with heq | hmem'
    · have hk : p.1 = k₀ := congrArg Prod.fst heq.symm
      have hr : p.2 = r₀ := congrArg Prod.snd heq.symm
      refine ⟨evs, by rw [hk, hr] at hev; exact hev, ?_⟩
      have h1 : evs.filter (fun e => evKey e == k₀) = evs := by
        rw [List.filter_eq_self]
        intro e he
        simp [hevkeys e he, hk]
      have h2 : more.filter (fun e => evKey e == k₀) = [] := by
        rw [List.filter_eq_nil_iff]
        intro e he
        have : evKey e ∈ rest.map Prod.fst :=
          (hmoreprops.2.subset) (List.mem_map_of_mem evKey he)
        simp only [beq_iff_eq]
        intro hcontra
        rw [hcontra, ← hk] at this
        exact hnd'.1 this
      rw [h1, h2, List.append_nil]
    · have hk0mem : k₀ ∈ rest.map Prod.fst := by
        have := List.mem_map_of_mem Prod.fst hmem'
        simpa using this
      have h1 : evs.filter (fun e => evKey e == k₀) = [] := by
        rw [List.filter_eq_nil_iff]
        intro e he
        simp only [beq_iff_eq]
        intro hcontra
        rw [← hcontra] at hk0mem
        rw [hevkeys e he] at hk0mem
        exact hnd'.1 hk0mem
      rcases ih more k₀ r₀ hrest hrestkeys hnd'.2 hmem' with ⟨evs₀, hev₀, hfil⟩
      exact ⟨evs₀, hev₀, by rw [h1, hfil, List.nil_append]⟩

theorem removedEvents_props (now : String) (nd : Dict) :
    ∀ entries : List (Key × Record),
    (∀ p ∈ entries, p.1 = p.2.key) →
    (∀ e ∈ removedEvents now nd entries, e.change_type = "移除" ∧
      dictFind nd (evKey e) = none) ∧
    List.Sublist ((removedEvents now nd entries).map evKey)
      (entries.map Prod.fst) := by
  intro entries
  induction entries with
  | nil => intro _; exact ⟨by simp [removedEvents], by simp [removedEvents]⟩
  | cons p rest ih =>
    intro hkeys
    have hkeyp : p.1 = p.2.key := hkeys p (by simp)
    have ihm := ih (fun q hq => hkeys q (List.mem_cons_of_mem _ hq))
    unfold removedEvents
    by_cases hfind : (dictFind nd p.1).isNone
    · have hfind' : dictFind nd p.1 = none := Option.isNone_iff_eq_none.mp hfind
      constructor
      · intro e he
        simp only [hfind, if_true, List.singleton_append] at he
        rcases List.mem_cons.mp he with hmem | hmem
        · subst hmem
          refine ⟨rfl, ?_⟩
          have : evKey (removedEvent now p.2) = p.1 := by
            simp [evKey, removedEvent, hkeyp, Record.key]
          rw [this]
          exact hfind'
        · exact ihm.1 e hmem
      · simp only [hfind, if_true, List.singleton_append, List.map_cons]
        have hk : evKey (removedEvent now p.2) = p.1 := by
          simp [evKey, removedEvent, hkeyp, Record.key]
        rw [hk]
        exact List.Sublist.cons₂ p.1 ihm.2
    · have hfind' : (dictFind nd p.1).isNone = false := by
        cases hd : dictFind nd p.1 with
        | none => exact absurd (by rw [hd]; rfl) hfind
        | some r => rfl
      constructor
      · intro e he
        simp only [hfind', Bool.false_eq_true, if_false, List.nil_append] at he
        exact ihm.1 e he
      · simp only [hfind', Bool.false_eq_true, if_false, List.nil_append,
          List.map_cons]
        exact List.Sublist.cons p.1 ihm.2

theorem removedEvents_all_found (now : String) (nd : Dict) :
    ∀ entries : List (Key × Record),
    (∀ p ∈ entries, (dictFind nd p.1).isSome) →
    removedEvents now nd entries = [] := by
  intro entries
  induction entries with
  | nil => intro _; rfl
  | cons p rest ih =>
    intro h
    unfold removedEvents
    have hp : (dictFind nd p.1).isSome := h p (by simp)
    have : (dictFind nd p.1).isNone = false := by
      cases hd : dictFind nd p.1 with
      | none => rw [hd] at hp; simp at hp
      | some r => rfl
    rw [this]
    simpa using ih (fun q hq => h q (List.mem_cons_of_mem _ hq))

/-! ## `compare_metadata` reads only the comparison-relevant fields -/

theorem coreEq_key {a b : Record} (h : coreEq a b) : a.key = b.key := by
  unfold Record.key
  rw [h.1, h.2.1]

theorem entryRel_any (k : Key) {d₁ d₂ : Dict}
    (h : List.Forall₂ entryRel d₁ d₂) :
    d₁.any (fun p => p.1 == k) = d₂.any (fun p => p.1 == k) := by
  induction h with
  | nil => rfl
  | cons hpq _ ih => simp only [List.any_cons, ih, hpq.1]

theorem entryRel_dictInsert {d₁ d₂ : Dict} (h : List.Forall₂ entryRel d₁ d₂)
    (k : Key) {v₁ v₂ : Record} (hv : coreEq v₁ v₂) :
    List.Forall₂ entryRel (dictInsert d₁ k v₁) (dictInsert d₂ k v₂) := by
  unfold dictInsert
  rw [entryRel_any k h]
  by_cases hany : d₂.any (fun p => p.1 == k) = true
  · rw [if_pos hany, if_pos hany]
    clear hany
    induction h with
    | nil => exact List.Forall₂.nil
    | cons hpq _ ih =>
      rename_i p q l₁ l₂ _
      simp only [List.map_cons]
      refine List.Forall₂.cons ?_ ih
      rw [hpq.1]
      by_cases hk : (q.1 == k) = true
      · rw [if_pos hk, if_pos hk]
        exact ⟨rfl, hv⟩
      · rw [if_neg hk, if_neg hk]
        exact hpq
  · rw [if_neg hany, if_neg hany]
    exact List.rel_append h (List.Forall₂.cons ⟨rfl, hv⟩ List.Forall₂.nil)

theorem entryRel_buildDict {s₁ s₂ : List Record}
    (h : List.Forall₂ coreEq s₁ s₂) :
    List.Forall₂ entryRel (buildDict s₁) (buildDict s₂) := by
  unfold buildDict
  suffices haux : ∀ {d₁ d₂ : Dict}, List.Forall₂ entryRel d₁ d₂ →
      List.Forall₂ entryRel
        (s₁.foldl (fun d item => dictInsert d item.key item) d₁)
        (s₂.foldl (fun d item => dictInsert d item.key item) d₂) from
    haux List.Forall₂.nil
  induction h with
  | nil => intro d₁ d₂ hd; exact hd
  | cons hab _ ih =>
    intro d₁ d₂ hd
    simp only [List.foldl_cons]
    refine ih ?_
    rw [coreEq_key hab]
    exact entryRel_dictInsert hd _ hab

theorem entryRel_dictFind {d₁ d₂ : Dict} (h : List.Forall₂ entryRel d₁ d₂)
    (k : Key) :
    (dictFind d₁ k = none ∧ dictFind d₂ k = none) ∨
    ∃ r₁ r₂, dictFind d₁ k = some r₁ ∧ dictFind d₂ k = some r₂ ∧
      coreEq r₁ r₂ := by
  induction h with
  | nil => left; exact ⟨rfl, rfl⟩
  | cons hpq _ ih =>
    rename_i p q l₁ l₂ _
    by_cases hk : (p.1 == k) = true
    · have hk' : (q.1 == k) = true := by rw [← hpq.1]; exact hk
      right
      refine ⟨p.2, q.2, ?_, ?_, hpq.2⟩
      · unfold dictFind
        rw [List.find?_cons, hk]
        rfl
      · unfold dictFind
        rw [List.find?_cons, hk']
        rfl
    · have hkf : (p.1 == k) = false := by simpa using hk
      have hkf' : (q.1 == k) = false := by rw [← hpq.1]; exact hkf
      rcases ih with ⟨h1, h2⟩ | ⟨r₁, r₂, h1, h2, hr⟩
      · left
        constructor
        · unfold dictFind at h1 ⊢
          rw [List.find?_cons, hkf]
          exact h1
        · unfold dictFind at h2 ⊢
          rw [List.find?_cons, hkf']
          exact h2
      · right
        refine ⟨r₁, r₂, ?_, ?_, hr⟩
        · unfold dictFind at h1 ⊢
          rw [List.find?_cons, hkf]
          exact h1
        · unfold dictFind at h2 ⊢
          rw [List.find?_cons, hkf']
          exact h2

theorem newEvent_congr {d₁ d₂ : Dict} (h : List.Forall₂ entryRel d₁ d₂)
    (k : Key) {r₁ r₂ : Record} (hr : coreEq r₁ r₂) :
    newEvent d₁ k r₁ = newEvent d₂ k r₂ := by
  obtain ⟨hs, hn, hv, hl, hc⟩ := hr
  rcases entryRel_dictFind h k with ⟨h1, h2⟩ | ⟨o₁, o₂, h1, h2, ho⟩
  · simp only [newEvent, h1, h2, hs, hn, hv, hl, hc]
  · obtain ⟨_, _, hov, holu, _⟩ := ho
    simp only [newEvent, h1, h2, hs, hn, hv, hl, hc, hov, holu]

theorem processNew_congr {d₁ d₂ : Dict} (hd : List.Forall₂ entryRel d₁ d₂)
    {e₁ e₂ : List (Key × Record)} (h : List.Forall₂ entryRel e₁ e₂) :
    processNew d₁ e₁ = processNew d₂ e₂ := by
  induction h with
  | nil => rfl
  | cons hpq _ ih =>
    rename_i p q l₁ l₂ _
    unfold processNew
    have hev : newEvent d₁ p.1 p.2 = newEvent d₂ q.1 q.2 := by
      rw [hpq.1]
      exact newEvent_congr hd _ hpq.2
    rw [hev, ih]

theorem removedEvent_congr (now : String) {o₁ o₂ : Record}
    (h : coreEq o₁ o₂) : removedEvent now o₁ = removedEvent now o₂ := by
  obtain ⟨hs, hn, hv, hl, _⟩ := h
  unfold removedEvent
  rw [hs, hn, hv, hl]

theorem removedEvents_congr (now : String) {nd₁ nd₂ : Dict}
    (hnd : List.Forall₂ entryRel nd₁ nd₂)
    {e₁ e₂ : List (Key × Record)} (h : List.Forall₂ entryRel e₁ e₂) :
    removedEvents now nd₁ e₁ = removedEvents now nd₂ e₂ := by
  induction h with
  | nil => rfl
  | cons hpq _ ih =>
    rename_i p q l₁ l₂ _
    unfold removedEvents
    have hfind : (dictFind nd₁ p.1).isNone = (dictFind nd₂ q.1).isNone := by
      rw [hpq.1]
      rcases entryRel_dictFind hnd q.1 with ⟨h1, h2⟩ | ⟨r₁, r₂, h1, h2, _⟩
      · rw [h1, h2]
      · rw [h1, h2]
        rfl
    rw [hfind, removedEvent_congr now hpq.2, ih]

theorem compare_metadata_congr (now : String) {o₁ o₂ n₁ n₂ : List Record}
    (ho : List.Forall₂ coreEq o₁ o₂) (hn : List.Forall₂ coreEq n₁ n₂) :
    compare_metadata now o₁ n₁ = compare_metadata now o₂ n₂ := by
  unfold compare_metadata
  rw [processNew_congr (entryRel_buildDict ho) (entryRel_buildDict hn),
    removedEvents_congr now (entryRel_buildDict hn) (entryRel_buildDict ho)]

theorem removedEvents_empty_dict (now : String) :
    ∀ entries : List (Key × Record),
    removedEvents now [] entries = entries.map (fun p => removedEvent now p.2) := by
  intro entries
  induction entries with
  | nil => rfl
  | cons p rest ih =>
    unfold removedEvents
    rw [ih]
    rfl

theorem compare_metadata_ok_inv (now : String) (old new : List Record)
    (l : List ChangeEvent) (h : compare_metadata now old new = .ok l) :
    ∃ u, processNew (buildDict old) (buildDict new) = .ok u ∧
      l = u ++ removedEvents now (buildDict new) (buildDict old) := by
  unfold compare_metadata at h
  cases hp : processNew (buildDict old) (buildDict new) with
  | error e => simp [hp] at h
  | ok u =>
    simp only [hp] at h
    exact ⟨u, rfl, by cases h; rfl⟩

theorem processNew_total_aux (d : Dict) (s : List (Key × Record))
    (h : ∀ p ∈ s, ∃ evs, newEvent d p.1 p.2 = .ok evs) :
    ∃ l, processNew d s = .ok l := by
  induction s with
  | nil => exact ⟨[], rfl⟩
  | cons p rest ih =>
    rcases h p (by simp) with ⟨evs, hev⟩
    rcases ih (fun q hq => h q (List.mem_cons_of_mem _ hq)) with ⟨more, hmore⟩
    refine ⟨evs ++ more, ?_⟩
    unfold processNew
    rw [hev, hmore]

theorem processNew_all_nil (d : Dict) (s : List (Key × Record))
    (h : ∀ p ∈ s, newEvent d p.1 p.2 = .ok []) :
    processNew d s = .ok [] := by
  induction s with
  | nil => rfl
  | cons p rest ih =>
    unfold processNew
    rw [h p (by simp), ih (fun q hq => h q (List.mem_cons_of_mem _ hq))]
    rfl

theorem processNew_empty_old (S : List Record)
    (hck : ∀ r ∈ S, r.checked_at.isSome = true) :
    ∃ l, processNew [] (S.map (fun r => (r.key, r))) = .ok l ∧
      l.map (fun e => (e.change_type, e.source, e.name))
        = S.map (fun r => ("新增", r.source, r.name)) := by
  induction S with
  | nil => exact ⟨[], rfl, rfl⟩
  | cons r S ih =>
    rcases Option.isSome_iff_exists.mp (hck r (by simp)) with ⟨ct, hct⟩
    rcases ih (fun q hq => hck q (List.mem_cons_of_mem _ hq)) with ⟨l, hl, hmap⟩
    have hev := newEvent_added [] r.key r ct rfl hct
    refine ⟨{
      source := r.source, name := r.name, change_type := "新增",
      old_value := none,
      new_value := pyOr r.version.join r.last_updated.join,
      check_time := ct } :: l, ?_, ?_⟩
    · simp only [List.map_cons]
      unfold processNew
      rw [hev, hl]
      rfl
    · simp [hmap]

/-! ## JSON escaping lemmas -/

theorem pyjson_foldl_append_data (l : List String) :
    ∀ acc : String, (l.foldl (fun a b => a ++ b) acc).data
      = acc.data ++ (l.map String.data).flatten := by
  induction l with
  | nil => intro acc; simp
  | cons x l ih =>
    intro acc
    simp only [List.foldl_cons, ih, String.data_append, List.map_cons,
      List.flatten_cons, List.append_assoc]

theorem pyjson_join_data (l : List String) :
    (String.join l).data = (l.map String.data).flatten := by
  have := pyjson_foldl_append_data l ""
  simpa [String.join] using this

theorem escapeChar_nonascii (c : Char) (hc : 127 < c.toNat) :
    PyJson.escapeChar false c = String.singleton c := by
  have h1 : ¬ c = '"' := fun h => absurd (h ▸ hc) (by decide)
  have h2 : ¬ c = '\\' := fun h => absurd (h ▸ hc) (by decide)
  have h3 : ¬ c = '\n' := fun h => absurd (h ▸ hc) (by decide)
  have h4 : ¬ c = '\r' := fun h => absurd (h ▸ hc) (by decide)
  have h5 : ¬ c = '\t' := fun h => absurd (h ▸ hc) (by decide)
  have h6 : ¬ c.toNat = 8 := by omega
  have h7 : ¬ c.toNat = 12 := by omega
  have h8 : ¬ c.toNat < 32 := by omega
  simp [PyJson.escapeChar, h1, h2, h3, h4, h5, h6, h7, h8]

theorem escapeChar_ascii_escapes (c : Char) (hc : 127 < c.toNat)
    (hbmp : c.toNat < 65536) :
    PyJson.escapeChar true c = PyJson.uEscape c.toNat := by
  have h1 : ¬ c = '"' := fun h => absurd (h ▸ hc) (by decide)
  have h2 : ¬ c = '\\' := fun h => absurd (h ▸ hc) (by decide)
  have h3 : ¬ c = '\n' := fun h => absurd (h ▸ hc) (by decide)
  have h4 : ¬ c = '\r' := fun h => absurd (h ▸ hc) (by decide)
  have h5 : ¬ c = '\t' := fun h => absurd (h ▸ hc) (by decide)
  have h6 : ¬ c.toNat = 8 := by omega
  have h7 : ¬ c.toNat = 12 := by omega
  have h8 : ¬ c.toNat < 32 := by omega
  have h9 : 126 < c.toNat := by omega
  simp [PyJson.escapeChar, h1, h2, h3, h4, h5, h6, h7, h8, h9, hbmp]

theorem mem_escapeString (c : Char) (s : String) (hc : 127 < c.toNat)
    (hm : c ∈ s.data) : c ∈ (PyJson.escapeString false s).data := by
  unfold PyJson.escapeString
  rw [pyjson_join_data, List.map_map]
  refine List.mem_flatten.mpr ⟨(PyJson.escapeChar false c).data, ?_, ?_⟩
  · exact List.mem_map_of_mem _ hm
  · rw [escapeChar_nonascii c hc]
    simp [String.singleton]

theorem mem_sepJoin (sep : String) (parts : List String) (x : String)
    (c : Char) (hx : x ∈ parts) (hc : c ∈ x.data) :
    c ∈ (PyJson.sepJoin sep parts).data := by
  induction parts with
  | nil => cases hx
  | cons a parts ih =>
    cases parts with
    | nil =>
      have : x = a := by simpa using hx
      subst this
      simpa [PyJson.sepJoin] using hc
    | cons b rest =>
      unfold PyJson.sepJoin
      rw [String.data_append, String.data_append]
      rcases List.mem_cons.mp hx with rfl | hx'
      · exact List.mem_append.mpr (Or.inl (List.mem_append.mpr (Or.inl hc)))
      · exact List.mem_append.mpr (Or.inr (ih hx'))

theorem mem_dumpPair (p : String × PyJson.JValue) (c : Char)
    (hc : 127 < c.toNat) (hm : c ∈ PyJson.pairChars p) :
    c ∈ (PyJson.dumpPair false p).data := by
  unfold PyJson.pairChars at hm
  unfold PyJson.dumpPair
  simp only [String.data_append, List.mem_append]
  rcases List.mem_append.mp hm with hk | hv
  · exact Or.inl (Or.inl (Or.inr (mem_escapeString c p.1 hc hk)))
  · cases hval : p.2 with
    | str s =>
      rw [hval] at hv
      simp only [PyJson.valueChars] at hv
      right
      simp only [PyJson.dumpValue, String.data_append, List.mem_append]
      exact Or.inl (Or.inr (mem_escapeString c s hc hv))
    | null => rw [hval] at hv; cases hv
    | int n => rw [hval] at hv; cases hv

theorem mem_dumpObj (o : PyJson.JObj) (c : Char) (hc : 127 < c.toNat)
    (hm : c ∈ (o.map PyJson.pairChars).flatten) :
    c ∈ (PyJson.dumpObj false o).data := by
  rcases List.mem_flatten.mp hm with ⟨chs, hin, hcin⟩
  rcases List.mem_map.mp hin with ⟨p, hp, rfl⟩
  cases o with
  | nil => cases hp
  | cons p0 ps =>
    simp only [PyJson.dumpObj, String.data_append, List.mem_append]
    exact Or.inl (Or.inr (mem_sepJoin _ _ (PyJson.dumpPair false p) c
      (List.mem_map_of_mem _ hp) (mem_dumpPair p c hc hcin)))

theorem mem_dump (data : List PyJson.JObj) (c : Char) (hc : 127 < c.toNat)
    (hm : c ∈ PyJson.dataChars data) : c ∈ (PyJson.dump false data).data := by
  unfold PyJson.dataChars at hm
  rcases List.mem_flatten.mp hm with ⟨chs, hin, hcin⟩
  rcases List.mem_map.mp hin with ⟨o, ho, rfl⟩
  cases data with
  | nil => cases ho
  | cons o0 os =>
    simp only [PyJson.dump, String.data_append, List.mem_append]
    exact Or.inl (Or.inr (mem_sepJoin _ _ (PyJson.dumpObj false o) c
      (List.mem_map_of_mem _ ho) (mem_dumpObj o c hc hcin)))

theorem entry_key_eq (s : List Record) :
    ∀ p ∈ s.map (fun r => (r.key, r)), p.1 = p.2.key := by
  intro p hp
  rcases List.mem_map.mp hp with ⟨r', _, rfl⟩
  rfl

theorem entry_fst_nodup (s : List Record) (h : (s.map Record.key).Nodup) :
    ((s.map (fun r => (r.key, r))).map Prod.fst).Nodup := by
  rw [List.map_map]
  exact h

/-- For a key present in both well-formed snapshots, the events of an
`ok` diff carrying that key are exactly the output of the matched branch
of the first loop for that key. -/
theorem compare_filter_matched (now : String) (old new : List Record)
    (ro rn : Record) (hwo : Snapshot.wf old) (hwn : Snapshot.wf new)
    (hro : ro ∈ old) (hrn : rn ∈ new) (hkey : ro.key = rn.key)
    (l : List ChangeEvent) (h : compare_metadata now old new = .ok l) :
    ∃ evs₀, newEvent (buildDict old) rn.key rn = .ok evs₀ ∧
      l.filter (fun e => evKey e == rn.key) = evs₀ ∧
      dictFind (buildDict old) rn.key = some ro := by
  rcases compare_metadata_ok_inv now old new l h with ⟨u, hu, rfl⟩
  rw [buildDict_eq new hwn.1] at hu
  rcases processNew_filter _ _ u rn.key rn hu (entry_key_eq new)
    (entry_fst_nodup new hwn.1) (List.mem_map_of_mem _ hrn) with ⟨evs₀, hev, hfil⟩
  have hremfil : (removedEvents now (buildDict new) (buildDict old)).filter
      (fun e => evKey e == rn.key) = [] := by
    rw [List.filter_eq_nil_iff]
    intro e he
    rw [buildDict_eq old hwo.1] at he
    have hprops := (removedEvents_props now (buildDict new)
      (old.map (fun r => (r.key, r))) (entry_key_eq old)).1 e he
    simp only [beq_iff_eq]
    intro hcontra
    rw [hcontra] at hprops
    have hfound : dictFind (buildDict new) rn.key = some rn := by
      rw [buildDict_eq new hwn.1]
      exact dictFind_of_mem new rn hwn.1 hrn
    rw [hfound] at hprops
    exact Option.noConfusion hprops.2
  have hfind : dictFind (buildDict old) rn.key = some ro := by
    rw [buildDict_eq old hwo.1, ← hkey]
    exact dictFind_of_mem old ro hwo.1 hro
  refine ⟨evs₀, hev, ?_, hfind⟩
  rw [List.filter_append, hfil, hremfil, List.append_nil]

/-! ## Claims -/

/-- C1, counterexample: the claim that `compare_metadata` never raises on
well-formed snapshots whose comparison field may be absent is false.  With
a well-formed previous snapshot whose PyPI record lacks the `version` key
and a current snapshot carrying it, the lookup `old_item["version"]`
raises `KeyError`. -/
theorem c1_keyerror_on_absent_version :
    Snapshot.wf [pypi_no_version] ∧ Snapshot.wf [pypi_with_version] ∧
    compare_metadata "t" [pypi_no_version] [pypi_with_version]
      = .error "KeyError: version" :=
  ⟨by decide, by decide, rfl⟩

/-- C1, amended: `compare_metadata` returns normally on well-formed
snapshots provided that, whenever a key occurs in both snapshots, both
records carry their source-specific comparison field (the `.get` lookups
of the added/removed branches and the guarded `checked_at` lookups never
fail under well-formedness alone). -/
theorem c1_compare_metadata_total (now : String) (old new : List Record)
    (hwo : Snapshot.wf old) (hwn : Snapshot.wf new)
    (hcmp : ∀ ro ∈ old, ∀ rn ∈ new, ro.key = rn.key →
      ro.cmpField.isSome = true ∧ rn.cmpField.isSome = true) :
    ∃ l, compare_metadata now old new = .ok l := by
  unfold compare_metadata
  rw [buildDict_eq old hwo.1, buildDict_eq new hwn.1]
  obtain ⟨u, hu⟩ : ∃ u, processNew (old.map (fun r => (r.key, r)))
      (new.map (fun r => (r.key, r))) = .ok u := by
    apply processNew_total_aux
    intro p hp
    rcases List.mem_map.mp hp with ⟨rn, hrn, rfl⟩
    cases hfind : dictFind (old.map (fun r => (r.key, r))) rn.key with
    | none =>
      rcases Option.isSome_iff_exists.mp (hwn.2 rn hrn).2.1 with ⟨ct, hct⟩
      exact ⟨_, newEvent_added _ rn.key rn ct hfind hct⟩
    | some ro =>
      have hmem := dictFind_map_some old rn.key ro hfind
      have hkey : ro.key = rn.key := hmem.2
      have hsrceq : ro.source = rn.source := congrArg Prod.fst hkey
      have hc := hcmp ro hmem.1 rn hrn hkey
      rcases Option.isSome_iff_exists.mp (hwn.2 rn hrn).2.1 with ⟨ct, hct⟩
      rcases (hwn.2 rn hrn).1 with hsrc | hsrc
      · have hv1 : ro.cmpField = ro.version := by
          unfold Record.cmpField
          rw [hsrceq, hsrc, if_pos rfl]
        have hv2 : rn.cmpField = rn.version := by
          unfold Record.cmpField
          rw [hsrc, if_pos rfl]
        rcases Option.isSome_iff_exists.mp (hv1 ▸ hc.1) with ⟨ov, hov⟩
        rcases Option.isSome_iff_exists.mp (hv2 ▸ hc.2) with ⟨nv, hnv⟩
        exact ⟨_, newEvent_matched_pypi _ rn.key ro rn ov nv ct hfind hsrc
          hov hnv hct⟩
      · have hv1 : ro.cmpField = ro.last_updated := by
          unfold Record.cmpField
          rw [hsrceq, hsrc, if_neg (by decide), if_pos rfl]
        have hv2 : rn.cmpField = rn.last_updated := by
          unfold Record.cmpField
          rw [hsrc, if_neg (by decide), if_pos rfl]
        rcases Option.isSome_iff_exists.mp (hv1 ▸ hc.1) with ⟨ov, hov⟩
        rcases Option.isSome_iff_exists.mp (hv2 ▸ hc.2) with ⟨nv, hnv⟩
        exact ⟨_, newEvent_matched_github _ rn.key ro rn ov nv ct hfind hsrc
          hov hnv hct⟩
  rw [hu]
  exact ⟨_, rfl⟩

/-- C1, witness for the amended theorem at the §8 scenario snapshots. -/
theorem c1_compare_metadata_total_witness :
    ∃ l, compare_metadata "t" [numpy_old, linux_old] [numpy_new, pandas_new]
      = .ok l :=
  c1_compare_metadata_total "t" [numpy_old, linux_old] [numpy_new, pandas_new]
    (by decide) (by decide) (by decide)

/-- C3, counterexample: diffing a well-formed snapshot against itself can
raise rather than return the empty sequence: a PyPI record whose
`version` key is absent (allowed by the data model) hits
`old_item["version"]` in the matched branch. -/
theorem c3_self_diff_raises :
    Snapshot.wf [pypi_no_version] ∧
    compare_metadata "t" [pypi_no_version] [pypi_no_version]
      = .error "KeyError: version" :=
  ⟨by decide, rfl⟩

/-- C3, amended: diffing a well-formed snapshot against itself yields the
empty change sequence provided every record carries its comparison
field. -/
theorem c3_self_diff_empty (now : String) (S : List Record)
    (hwf : Snapshot.wf S) (hcmp : ∀ r ∈ S, r.cmpField.isSome = true) :
    compare_metadata now S S = .ok [] := by
  unfold compare_metadata
  rw [buildDict_eq S hwf.1]
  have h1 : processNew (S.map (fun r => (r.key, r)))
      (S.map (fun r => (r.key, r))) = .ok [] := by
    apply processNew_all_nil
    intro p hp
    rcases List.mem_map.mp hp with ⟨r, hr, rfl⟩
    have hfind : dictFind (S.map (fun r => (r.key, r))) r.key = some r :=
      dictFind_of_mem S r hwf.1 hr
    rcases Option.isSome_iff_exists.mp (hwf.2 r hr).2.1 with ⟨ct, hct⟩
    rcases (hwf.2 r hr).1 with hsrc | hsrc
    · have hv : r.cmpField = r.version := by
        unfold Record.cmpField
        rw [hsrc, if_pos rfl]
      rcases Option.isSome_iff_exists.mp (hv ▸ hcmp r hr) with ⟨v, hvv⟩
      rw [newEvent_matched_pypi _ r.key r r v v ct hfind hsrc hvv hvv hct]
      simp
    · have hv : r.cmpField = r.last_updated := by
        unfold Record.cmpField
        rw [hsrc, if_neg (by decide), if_pos rfl]
      rcases Option.isSome_iff_exists.mp (hv ▸ hcmp r hr) with ⟨v, hvv⟩
      rw [newEvent_matched_github _ r.key r r v v ct hfind hsrc hvv hvv hct]
      simp
  have h2 : removedEvents now (S.map (fun r => (r.key, r)))
      (S.map (fun r => (r.key, r))) = [] := by
    apply removedEvents_all_found
    intro p hp
    rcases List.mem_map.mp hp with ⟨r, hr, rfl⟩
    rw [dictFind_of_mem S r hwf.1 hr]
    rfl
  rw [h1, h2]
  rfl

/-- C3, witness for the amended theorem at a two-record snapshot. -/
theorem c3_self_diff_empty_witness :
    compare_metadata "t" [numpy_old, linux_old] [numpy_old, linux_old]
      = .ok [] :=
  c3_self_diff_empty "t" [numpy_old, linux_old] (by decide) (by decide)

/-- C5: diffing from an empty previous snapshot yields exactly one added
event per current record, in the current snapshot's order, each carrying
the record's identity. -/
theorem c5_diff_from_empty_adds_all (now : String) (S : List Record)
    (hwf : Snapshot.wf S) :
    ∃ l, compare_metadata now [] S = .ok l ∧
      l.map (fun e => (e.change_type, e.source, e.name))
        = S.map (fun r => ("新增", r.source, r.name)) := by
  rcases processNew_empty_old S (fun r hr => (hwf.2 r hr).2.1) with ⟨l, hl, hmap⟩
  refine ⟨l, ?_, hmap⟩
  unfold compare_metadata
  rw [buildDict_eq S hwf.1]
  rw [show buildDict ([] : List Record) = ([] : Dict) from rfl]
  rw [hl]
  simp [removedEvents]

/-- C5, witness at the §8 scenario's current snapshot. -/
theorem c5_diff_from_empty_adds_all_witness :
    ∃ l, compare_metadata "t" [] [numpy_new, pandas_new] = .ok l ∧
      l.map (fun e => (e.change_type, e.source, e.name))
        = [numpy_new, pandas_new].map (fun r => ("新增", r.source, r.name)) :=
  c5_diff_from_empty_adds_all "t" [numpy_new, pandas_new] (by decide)

/-- C6, counterexample: the removal event's `old_value` is not always the
record's comparison field.  For a PyPI record whose `version` is the empty
string, Python's `or` chain makes `old_value` `None`, not `""`. -/
theorem c6_removed_empty_version_oldvalue :
    Snapshot.wf [pypi_empty_version] ∧
    pypi_empty_version.version = some (some "") ∧
    compare_metadata "n" [pypi_empty_version] [] = .ok [{
      source := "pypi", name := "x", change_type := "移除",
      old_value := none, new_value := none, check_time := some "n" }] ∧
    (none : Option String) ≠ some "" :=
  ⟨by decide, rfl, rfl, by decide⟩

/-- C6, amended: diffing a well-formed snapshot against an empty current
snapshot yields exactly one removal per record, in order, with
`old_value` the record's version if present and truthy, else its
`last_updated` if present and truthy, else `None` (the code's `or`
chain), and no `new_value`. -/
theorem c6_diff_to_empty_removes_all (now : String) (S : List Record)
    (hwf : Snapshot.wf S) :
    ∃ l, compare_metadata now S [] = .ok l ∧
      l.map (fun e =>
          (e.change_type, e.source, e.name, e.old_value, e.new_value))
        = S.map (fun r => ("移除", r.source, r.name,
            pyOr r.version.join r.last_updated.join,
            (none : Option String))) := by
  refine ⟨(S.map (fun r => (r.key, r))).map (fun p => removedEvent now p.2),
    ?_, ?_⟩
  · unfold compare_metadata
    rw [buildDict_eq S hwf.1]
    rw [show buildDict ([] : List Record) = ([] : Dict) from rfl]
    rw [show processNew (S.map (fun r => (r.key, r)))
      ([] : List (Key × Record)) = .ok [] from rfl]
    rw [removedEvents_empty_dict]
    simp
  · rw [List.map_map, List.map_map]
    rfl

/-- C6, witness for the amended theorem at a one-record snapshot. -/
theorem c6_diff_to_empty_removes_all_witness :
    ∃ l, compare_metadata "t" [linux_old] [] = .ok l ∧
      l.map (fun e =>
          (e.change_type, e.source, e.name, e.old_value, e.new_value))
        = [linux_old].map (fun r => ("移除", r.source, r.name,
            pyOr r.version.join r.last_updated.join,
            (none : Option String))) :=
  c6_diff_to_empty_removes_all "t" [linux_old] (by decide)

/-- C10: when a fetch cycle collects no records, the save step of `main`
in `test_data.py` opens neither `metadata.json` nor `metadata.csv`, so
the previously persisted snapshot file survives unchanged; `save_to_csv`
likewise returns without opening its output file on an empty list. -/
theorem c10_empty_cycle_writes_nothing :
    main_save_writes [] = [] ∧
    ∀ path : String, save_to_csv_writes [] path = [] :=
  ⟨rfl, fun _ => rfl⟩

/-- C2: the §8 scenario produces exactly the three expected events, in
the expected order; and for all pairs of well-formed snapshots the output
is the non-removal events, keyed in the current snapshot's input order,
followed by the removal events, keyed in the previous snapshot's input
order. -/
theorem c2_scenario_and_order :
    (compare_metadata "t2" [numpy_old, linux_old] [numpy_new, pandas_new]
      = .ok [ev_numpy_updated, ev_pandas_added, ev_linux_removed]) ∧
    (∀ (now : String) (old new : List Record) (l : List ChangeEvent),
      Snapshot.wf old → Snapshot.wf new →
      compare_metadata now old new = .ok l →
      l = l.filter (fun e => !(e.change_type == "移除"))
            ++ l.filter (fun e => e.change_type == "移除") ∧
      List.Sublist
        ((l.filter (fun e => !(e.change_type == "移除"))).map evKey)
        (new.map Record.key) ∧
      List.Sublist
        ((l.filter (fun e => e.change_type == "移除")).map evKey)
        (old.map Record.key)) := by
  constructor
  · rfl
  · intro now old new l hwo hwn h
    rcases compare_metadata_ok_inv now old new l h with ⟨u, hu, rfl⟩
    rw [buildDict_eq new hwn.1] at hu
    rw [buildDict_eq new hwn.1, buildDict_eq old hwo.1]
    have hup := processNew_props _ _ u hu (entry_key_eq new)
    have hrp := removedEvents_props now (new.map (fun r => (r.key, r)))
      (old.map (fun r => (r.key, r))) (entry_key_eq old)
    have hu1 : u.filter (fun e => !(e.change_type == "移除")) = u := by
      rw [List.filter_eq_self]
      intro e he
      simpa using hup.1 e he
    have hu2 : u.filter (fun e => e.change_type == "移除") = [] := by
      rw [List.filter_eq_nil_iff]
      intro e he
      simpa using hup.1 e he
    have hr1 : (removedEvents now (new.map (fun r => (r.key, r)))
        (old.map (fun r => (r.key, r)))).filter
          (fun e => !(e.change_type == "移除")) = [] := by
      rw [List.filter_eq_nil_iff]
      intro e he
      simp [(hrp.1 e he).1]
    have hr2 : (removedEvents now (new.map (fun r => (r.key, r)))
        (old.map (fun r => (r.key, r)))).filter
          (fun e => e.change_type == "移除")
        = removedEvents now (new.map (fun r => (r.key, r)))
            (old.map (fun r => (r.key, r))) := by
      rw [List.filter_eq_self]
      intro e he
      simp [(hrp.1 e he).1]
    rw [List.filter_append, List.filter_append, hu1, hu2, hr1, hr2]
    refine ⟨by simp, ?_, ?_⟩
    · rw [List.append_nil]
      have hsub := hup.2
      rw [List.map_map] at hsub
      exact hsub
    · rw [List.nil_append]
      have hsub := hrp.2
      rw [List.map_map] at hsub
      exact hsub

/-- C2, witness for the universally quantified ordering part at the §8
scenario. -/
theorem c2_scenario_and_order_witness :
    [ev_numpy_updated, ev_pandas_added, ev_linux_removed]
      = ([ev_numpy_updated, ev_pandas_added, ev_linux_removed].filter
          (fun e => !(e.change_type == "移除")))
        ++ ([ev_numpy_updated, ev_pandas_added, ev_linux_removed].filter
          (fun e => e.change_type == "移除")) ∧
    List.Sublist
      (([ev_numpy_updated, ev_pandas_added, ev_linux_removed].filter
        (fun e => !(e.change_type == "移除"))).map evKey)
      ([numpy_new, pandas_new].map Record.key) ∧
    List.Sublist
      (([ev_numpy_updated, ev_pandas_added, ev_linux_removed].filter
        (fun e => e.change_type == "移除")).map evKey)
      ([numpy_old, linux_old].map Record.key) :=
  c2_scenario_and_order.2 "t2" [numpy_old, linux_old] [numpy_new, pandas_new]
    [ev_numpy_updated, ev_pandas_added, ev_linux_removed]
    (by decide) (by decide) rfl

/-- C4, counterexample: the added event's `newValue` is not selected by
source kind alone.  For a PyPI record whose `version` is the empty string
(falsy in Python), the `or` chain yields `None` instead of `""`. -/
theorem c4_added_empty_version_newvalue :
    Snapshot.wf [pypi_empty_version] ∧
    pypi_empty_version.version = some (some "") ∧
    compare_metadata "n" [] [pypi_empty_version] = .ok [{
      source := "pypi", name := "x", change_type := "新增",
      old_value := none, new_value := none, check_time := some "t" }] ∧
    (none : Option String) ≠ some "" :=
  ⟨by decide, rfl, rfl, by decide⟩

/-- C4, amended: for every key of the current snapshot absent from the
previous one, the diff contains an added event for that record whose
`new_value` is the record's `version` if present and truthy, otherwise
its `last_updated` if present and truthy, otherwise `None` — Python's
`get("version") or get("last_updated")` — and no `old_value`. -/
theorem c4_added_newvalue_truthy_or (now : String) (old new : List Record)
    (r : Record) (hwo : Snapshot.wf old) (hwn : Snapshot.wf new)
    (hr : r ∈ new) (habs : ∀ ro ∈ old, ro.key ≠ r.key)
    (l : List ChangeEvent) (h : compare_metadata now old new = .ok l) :
    ∃ e ∈ l, e.change_type = "新增" ∧ e.source = r.source ∧
      e.name = r.name ∧ e.old_value = none ∧
      e.new_value = pyOr r.version.join r.last_updated.join := by
  rcases compare_metadata_ok_inv now old new l h with ⟨u, hu, rfl⟩
  rw [buildDict_eq new hwn.1] at hu
  rcases processNew_filter _ _ u r.key r hu (entry_key_eq new)
    (entry_fst_nodup new hwn.1) (List.mem_map_of_mem _ hr) with
    ⟨evs₀, hev, hfil⟩
  have hfind : dictFind (buildDict old) r.key = none := by
    rw [buildDict_eq old hwo.1]
    exact (dictFind_map_eq_none old r.key).mpr habs
  rcases Option.isSome_iff_exists.mp (hwn.2 r hr).2.1 with ⟨ct, hct⟩
  rw [newEvent_added _ r.key r ct hfind hct] at hev
  cases hev
  have hmemf : ({
      source := r.source, name := r.name, change_type := "新增",
      old_value := none,
      new_value := pyOr r.version.join r.last_updated.join,
      check_time := ct } : ChangeEvent) ∈ u := by
    have hmf : ({
        source := r.source, name := r.name, change_type := "新增",
        old_value := none,
        new_value := pyOr r.version.join r.last_updated.join,
        check_time := ct } : ChangeEvent)
        ∈ u.filter (fun e => evKey e == r.key) := by
      rw [hfil]
      exact List.mem_singleton_self _
    exact List.mem_of_mem_filter hmf
  exact ⟨_, List.mem_append.mpr (Or.inl hmemf), rfl, rfl, rfl, rfl, rfl⟩

/-- C4, witness at a current snapshot holding one fresh PyPI record. -/
theorem c4_added_newvalue_truthy_or_witness :
    ∃ e ∈ [ev_pandas_added], e.change_type = "新增" ∧
      e.source = pandas_new.source ∧ e.name = pandas_new.name ∧
      e.old_value = none ∧
      e.new_value = pyOr pandas_new.version.join pandas_new.last_updated.join :=
  c4_added_newvalue_truthy_or "t" [] [pandas_new] pandas_new
    (by decide) (by decide) (List.mem_singleton_self _)
    (by intro ro hro; cases hro) [ev_pandas_added] rfl

/-- C7, counterexample: when the comparison field is absent (not merely
`None`) in one snapshot and present in the other, the code raises
`KeyError` instead of emitting a `FieldUpdated` event. -/
theorem c7_absent_field_raises :
    Snapshot.wf [github_no_lu] ∧ Snapshot.wf [github_with_lu] ∧
    compare_metadata "n" [github_no_lu] [github_with_lu]
      = .error "KeyError: last_updated" :=
  ⟨by decide, by decide, rfl⟩

/-- C7, amended: for a key present in both well-formed snapshots with the
comparison field present (possibly `None`-valued) on both sides, a
difference in the two values yields exactly one field-update event for
that key carrying the old and new values, and equal values yield no event
for that key. -/
theorem c7_fieldupdated_on_present_diff (now : String)
    (old new : List Record) (ro rn : Record)
    (hwo : Snapshot.wf old) (hwn : Snapshot.wf new)
    (hro : ro ∈ old) (hrn : rn ∈ new) (hkey : ro.key = rn.key)
    (ho : ro.cmpField.isSome = true) (hn : rn.cmpField.isSome = true)
    (l : List ChangeEvent) (h : compare_metadata now old new = .ok l) :
    (ro.cmpField ≠ rn.cmpField →
      (l.filter (fun e => evKey e == rn.key)).map
          (fun e => (e.change_type, e.old_value, e.new_value))
        = [(fieldUpdatedType rn.source, ro.cmpField.join,
            rn.cmpField.join)]) ∧
    (ro.cmpField = rn.cmpField →
      l.filter (fun e => evKey e == rn.key) = []) := by
  rcases compare_filter_matched now old new ro rn hwo hwn hro hrn hkey l h
    with ⟨evs₀, hev, hfil, hfind⟩
  rcases Option.isSome_iff_exists.mp (hwn.2 rn hrn).2.1 with ⟨ct, hct⟩
  have hsrceq : ro.source = rn.source := congrArg Prod.fst hkey
  rcases (hwn.2 rn hrn).1 with hsrc | hsrc
  · have hv1 : ro.cmpField = ro.version := by
      unfold Record.cmpField
      rw [hsrceq, hsrc, if_pos rfl]
    have hv2 : rn.cmpField = rn.version := by
      unfold Record.cmpField
      rw [hsrc, if_pos rfl]
    rcases Option.isSome_iff_exists.mp (hv1 ▸ ho) with ⟨ov, hov⟩
    rcases Option.isSome_iff_exists.mp (hv2 ▸ hn) with ⟨nv, hnv⟩
    rw [newEvent_matched_pypi _ rn.key ro rn ov nv ct hfind hsrc hov hnv hct]
      at hev
    have hft : fieldUpdatedType rn.source = "版本更新" := by
      unfold fieldUpdatedType
      rw [hsrc, if_pos rfl]
    constructor
    · intro hne
      have hovnv : ov ≠ nv := by
        intro hc
        apply hne
        rw [hv1, hv2, hov, hnv, hc]
      rw [if_pos hovnv] at hev
      cases hev
      rw [hfil, hft, hv1, hv2, hov, hnv]
      rfl
    · intro heq
      have hovnv : ov = nv := by
        rw [hv1, hv2, hov, hnv] at heq
        exact Option.some.inj heq
      rw [if_neg (fun hc => hc hovnv)] at hev
      cases hev
      exact hfil
  · have hv1 : ro.cmpField = ro.last_updated := by
      unfold Record.cmpField
      rw [hsrceq, hsrc, if_neg (by decide), if_pos rfl]
    have hv2 : rn.cmpField = rn.last_updated := by
      unfold Record.cmpField
      rw [hsrc, if_neg (by decide), if_pos rfl]
    rcases Option.isSome_iff_exists.mp (hv1 ▸ ho) with ⟨ov, hov⟩
    rcases Option.isSome_iff_exists.mp (hv2 ▸ hn) with ⟨nv, hnv⟩
    rw [newEvent_matched_github _ rn.key ro rn ov nv ct hfind hsrc hov hnv hct]
      at hev
    have hft : fieldUpdatedType rn.source = "仓库更新" := by
      unfold fieldUpdatedType
      rw [hsrc, if_neg (by decide)]
    constructor
    · intro hne
      have hovnv : ov ≠ nv := by
        intro hc
        apply hne
        rw [hv1, hv2, hov, hnv, hc]
      rw [if_pos hovnv] at hev
      cases hev
      rw [hfil, hft, hv1, hv2, hov, hnv]
      rfl
    · intro heq
      have hovnv : ov = nv := by
        rw [hv1, hv2, hov, hnv] at heq
        exact Option.some.inj heq
      rw [if_neg (fun hc => hc hovnv)] at hev
      cases hev
      exact hfil

/-- C7, witness for the amended theorem at the `numpy` version bump. -/
theorem c7_fieldupdated_on_present_diff_witness :
    (numpy_old.cmpField ≠ numpy_new.cmpField →
      ([ev_numpy_updated].filter (fun e => evKey e == numpy_new.key)).map
          (fun e => (e.change_type, e.old_value, e.new_value))
        = [(fieldUpdatedType numpy_new.source, numpy_old.cmpField.join,
            numpy_new.cmpField.join)]) ∧
    (numpy_old.cmpField = numpy_new.cmpField →
      [ev_numpy_updated].filter (fun e => evKey e == numpy_new.key) = []) :=
  c7_fieldupdated_on_present_diff "t" [numpy_old] [numpy_new]
    numpy_old numpy_new (by decide) (by decide)
    (List.mem_singleton_self _) (List.mem_singleton_self _) rfl
    (by decide) (by decide) [ev_numpy_updated] rfl

/-- C8: a GitHub record with identical `last_updated` values in both
snapshots produces no event for its key; and the diff output depends only
on each record's identity, comparison fields and fetch timestamp — two
runs whose snapshots differ only in the opaque fields (stars, forks,
license, author, home page) produce identical output. -/
theorem c8_noncomparison_fields_ignored :
    (∀ (now : String) (old new : List Record) (ro rn : Record)
      (l : List ChangeEvent),
      Snapshot.wf old → Snapshot.wf new → ro ∈ old → rn ∈ new →
      ro.source = "github" → rn.source = "github" → ro.name = rn.name →
      ro.last_updated = rn.last_updated → rn.last_updated.isSome = true →
      compare_metadata now old new = .ok l →
      l.filter (fun e => evKey e == rn.key) = []) ∧
    (∀ (now : String) (o₁ o₂ n₁ n₂ : List Record),
      List.Forall₂ coreEq o₁ o₂ → List.Forall₂ coreEq n₁ n₂ →
      compare_metadata now o₁ n₁ = compare_metadata now o₂ n₂) := by
  constructor
  · intro now old new ro rn l hwo hwn hro hrn hsro hsrn hname hlu hlus h
    have hkey : ro.key = rn.key := by
      unfold Record.key
      rw [hsro, hsrn, hname]
    rcases compare_filter_matched now old new ro rn hwo hwn hro hrn hkey l h
      with ⟨evs₀, hev, hfil, hfind⟩
    rcases Option.isSome_iff_exists.mp (hwn.2 rn hrn).2.1 with ⟨ct, hct⟩
    rcases Option.isSome_iff_exists.mp hlus with ⟨v, hv⟩
    have hov : ro.last_updated = some v := by rw [hlu, hv]
    rw [newEvent_matched_github _ rn.key ro rn v v ct hfind hsrn hov hv hct]
      at hev
    rw [if_neg (fun hc => hc rfl)] at hev
    cases hev
    exact hfil
  · intro now o₁ o₂ n₁ n₂ hoc hnc
    exact compare_metadata_congr now hoc hnc

/-- C8, witness: both parts at concrete GitHub records differing only in
stars and license. -/
theorem c8_noncomparison_fields_ignored_witness :
    ([] : List ChangeEvent).filter (fun e => evKey e == github_with_lu_b.key)
      = [] ∧
    compare_metadata "t" [github_with_lu] [numpy_new]
      = compare_metadata "t" [github_with_lu_b] [numpy_new] :=
  ⟨c8_noncomparison_fields_ignored.1 "t" [github_with_lu] [github_with_lu_b]
      github_with_lu github_with_lu_b []
      (by decide) (by decide) (List.mem_singleton_self _)
      (List.mem_singleton_self _) rfl rfl rfl rfl rfl rfl,
    c8_noncomparison_fields_ignored.2 "t" [github_with_lu] [github_with_lu_b]
      [numpy_new] [numpy_new]
      (List.Forall₂.cons ⟨rfl, rfl, rfl, rfl, rfl⟩ List.Forall₂.nil)
      (List.Forall₂.cons ⟨rfl, rfl, rfl, rfl, rfl⟩ List.Forall₂.nil)⟩

/-- C9, counterexample: `Get_Date.py`'s `save_to_json` omits
`ensure_ascii=False`, so a non-ASCII character in a record is written as a
`\uXXXX` escape and does not appear literally in the output. -/
theorem c9_get_date_escapes_nonascii :
    127 < '中'.toNat ∧
    '中' ∈ PyJson.dataChars [[("author", PyJson.JValue.str "中")]] ∧
    ¬ '中' ∈ (save_to_json_Get_Date
      [[("author", PyJson.JValue.str "中")]]).data :=
  ⟨by decide, by decide, by decide⟩

/-- C9, amended: `test_data.py`'s `save_to_json` (`ensure_ascii=False`)
leaves every non-ASCII character unescaped and its output contains every
non-ASCII character of the serialized records literally, while
`Get_Date.py`'s (default `ensure_ascii=True`) rewrites every BMP
non-ASCII character into a `\uXXXX` escape. -/
theorem c9_test_data_preserves_nonascii :
    (∀ c : Char, 127 < c.toNat →
      PyJson.escapeChar false c = String.singleton c) ∧
    (∀ (data : List PyJson.JObj) (c : Char), 127 < c.toNat →
      c ∈ PyJson.dataChars data → c ∈ (save_to_json_test_data data).data) ∧
    (∀ c : Char, 127 < c.toNat → c.toNat < 65536 →
      PyJson.escapeChar true c = PyJson.uEscape c.toNat) := by
  refine ⟨escapeChar_nonascii, ?_, escapeChar_ascii_escapes⟩
  intro data c hc hm
  exact mem_dump data c hc hm

/-- C9, witness for the amended theorem at the character `中`. -/
theorem c9_test_data_preserves_nonascii_witness :
    PyJson.escapeChar false '中' = String.singleton '中' ∧
    '中' ∈ (save_to_json_test_data
      [[("author", PyJson.JValue.str "中")]]).data ∧
    PyJson.escapeChar true '中' = PyJson.uEscape ('中'.toNat) :=
  ⟨c9_test_data_preserves_nonascii.1 '中' (by decide),
    c9_test_data_preserves_nonascii.2.1 [[("author", PyJson.JValue.str "中")]]
      '中' (by decide) (by decide),
    c9_test_data_preserves_nonascii.2.2 '中' (by decide) (by decide)⟩

end WorkOfRace
